import Mathlib

/-!
Shallow embedding of the stock-reservation core of the
fardannozami/golang-microservice repository.

The `inventory` and `reservations` tables of the inventory service are
modelled as association lists, and the repository operations
(`CheckStock`, `ReserveStock`, `ReleaseStock` from
inventory-service/repository/inventory_repository.go) become pure state
transformers returning `Except`.  SQL/transport failures (connection
loss, failed commits) are environment faults and are not modelled; the
only failure paths kept are the ones the code decides on data: a missing
inventory row (scan of zero rows), insufficient stock, and an invalid
(shrinking) reservation.  A transaction that returns an error rolls back
before returning, so an error result carries no successor state: the
caller keeps the unchanged pre-state.
-/

namespace GolangMicroservice

/-- One row of the `inventory` table: product_id, quantity, reserved,
updated_at.  Go `int` quantities are modelled as unbounded `Int` (no
claim depends on 64-bit overflow); the timestamp is an abstract tick. -/
structure Inventory where
  productId : String
  quantity : Int
  reserved : Int
  updatedAt : Nat
  deriving DecidableEq

/-- One row of the `reservations` table: order_id, product_id, quantity,
unique on (order_id, product_id). -/
structure Reservation where
  orderId : String
  productId : String
  quantity : Int
  deriving DecidableEq

/-- The stock ledger store: the `inventory` table and the `reservations`
table. -/
structure Ledger where
  inventory : List Inventory
  reservations : List Reservation
  deriving DecidableEq

/-- Row selection `WHERE product_id = $1` (first matching row, as
scanned by `QueryRowContext`). -/
def findInventory (rows : List Inventory) (productId : String) : Option Inventory :=
  rows.find? (fun r => r.productId == productId)

/-- Row predicate `WHERE order_id = $1 AND product_id = $2` on the
reservations table. -/
def isResvFor (orderId productId : String) (r : Reservation) : Bool :=
  r.orderId == orderId && r.productId == productId

/-- The subquery `COALESCE((SELECT quantity FROM reservations WHERE
order_id = $1 AND product_id = $2), 0)`. -/
def reservedByOrder (rs : List Reservation) (orderId productId : String) : Int :=
  ((rs.find? (isResvFor orderId productId)).map Reservation.quantity).getD 0

/-- Failure results of the repository operations that are decided on
data (error strings in the Go code). -/
inductive RepoError where
  | scanFailed
  | insufficientStock (available requested : Int)
  | invalidReservation
  deriving DecidableEq

/-- `inventoryRepository.CheckStock`: `available = quantity - reserved`,
returns `available >= quantity`; a missing row yields `false`, not an
error. -/
def checkStock (s : Ledger) (productId : String) (quantity : Int) : Bool :=
  match findInventory s.inventory productId with
  | none => false
  | some inv => quantity ≤ inv.quantity - inv.reserved

/-- Per-row effect of `UPDATE inventory SET reserved = ..., updated_at =
$2 WHERE product_id = $3`: a row matching the product gets its reserved
count mapped through `f` and its timestamp stamped. -/
def invAdjust (productId : String) (f : Int → Int) (now : Nat) (r : Inventory) : Inventory :=
  if r.productId == productId then
    { r with reserved := f r.reserved, updatedAt := now }
  else r

/-- The SQL `UPDATE inventory ... WHERE product_id = $3` applied to the
whole table. -/
def adjustInventory (rows : List Inventory) (productId : String) (f : Int → Int)
    (now : Nat) : List Inventory :=
  rows.map (invAdjust productId f now)

/-- Per-row effect of `UPDATE reservations SET quantity = $1 WHERE
order_id = $2 AND product_id = $3`. -/
def resvSet (orderId productId : String) (quantity : Int) (r : Reservation) : Reservation :=
  if isResvFor orderId productId r then { r with quantity := quantity } else r

/-- The SQL `UPDATE reservations SET quantity = $1 WHERE order_id = $2
AND product_id = $3` (also the DO UPDATE arm of the upsert in
`ReserveStock`). -/
def updateResvQty (rs : List Reservation) (orderId productId : String)
    (quantity : Int) : List Reservation :=
  rs.map (resvSet orderId productId quantity)

/-- `INSERT INTO reservations ... ON CONFLICT(order_id, product_id) DO
UPDATE SET quantity = EXCLUDED.quantity`: update the row when the key is
present, insert a fresh row otherwise. -/
def upsertReservation (rs : List Reservation) (orderId productId : String)
    (quantity : Int) : List Reservation :=
  if rs.any (isResvFor orderId productId) then
    updateResvQty rs orderId productId quantity
  else
    rs ++ [{ orderId := orderId, productId := productId, quantity := quantity }]

/-- `inventoryRepository.ReserveStock`: inside one serializable
transaction, lock and scan the inventory row, check `available <
quantity`, read the previous reservation of this order, reject a
shrinking request (`delta < 0`), apply the positive delta to
`inventory.reserved`, and upsert the reservation row to the absolute
requested quantity. -/
def reserveStock (s : Ledger) (productId : String) (quantity : Int) (orderId : String)
    (now : Nat) : Except RepoError Ledger :=
  match findInventory s.inventory productId with
  | none => .error .scanFailed
  | some inv =>
    let available := inv.quantity - inv.reserved
    if available < quantity then
      .error (.insufficientStock available quantity)
    else
      let previousReserved := reservedByOrder s.reservations orderId productId
      let delta := quantity - previousReserved
      if delta < 0 then
        .error .invalidReservation
      else
        let inventoryRows :=
          if delta > 0 then
            adjustInventory s.inventory productId (fun x => x + delta) now
          else s.inventory
        let resvRows := upsertReservation s.reservations orderId productId quantity
        .ok { inventory := inventoryRows, reservations := resvRows }

/-- `inventoryRepository.ReleaseStock`: inside one serializable
transaction, lock and scan the inventory row together with this order's
reservation, clamp the release amount to what the order holds, treat a
non-positive amount as a successful no-op, otherwise decrement
`inventory.reserved` and update or delete the reservation row. -/
def releaseStock (s : Ledger) (productId : String) (quantity : Int) (orderId : String)
    (now : Nat) : Except RepoError Ledger :=
  match findInventory s.inventory productId with
  | none => .error .scanFailed
  | some _ =>
    let reservedByOrd := reservedByOrder s.reservations orderId productId
    let releaseAmount := if reservedByOrd < quantity then reservedByOrd else quantity
    if releaseAmount ≤ 0 then
      .ok s
    else
      let inventoryRows := adjustInventory s.inventory productId (fun x => x - releaseAmount) now
      let remaining := reservedByOrd - releaseAmount
      let resvRows :=
        if 0 < remaining then
          updateResvQty s.reservations orderId productId remaining
        else
          s.reservations.filter (fun r => ! isResvFor orderId productId r)
      .ok { inventory := inventoryRows, reservations := resvRows }

/-- Total quantity the reservations table holds against one product
(the amount the aggregate `inventory.reserved` counter accounts for). -/
def resvSum (rs : List Reservation) (productId : String) : Int :=
  rs.foldr (fun r acc => if r.productId = productId then r.quantity + acc else acc) 0

/-- Distinctness of the `UNIQUE(order_id, product_id)` key of two
reservation rows. -/
def resvKeyNe (a b : Reservation) : Prop :=
  a.orderId ≠ b.orderId ∨ a.productId ≠ b.productId

instance : DecidableRel resvKeyNe := fun a b => by
  unfold resvKeyNe
  infer_instance

/-- Wellformedness of a ledger state: primary keys are unique,
reservation quantities are non-negative, and for every product the
aggregate `reserved` counter equals the sum of the per-order reservation
rows and stays within `quantity`.  This is the inductive invariant the
reservation engine maintains. -/
def WF (s : Ledger) : Prop :=
  s.inventory.Pairwise (fun a b => a.productId ≠ b.productId) ∧
  s.reservations.Pairwise resvKeyNe ∧
  (∀ r ∈ s.reservations, 0 ≤ r.quantity) ∧
  (∀ inv ∈ s.inventory, inv.reserved = resvSum s.reservations inv.productId ∧
    inv.reserved ≤ inv.quantity)

/-- A freshly provisioned ledger: schema bootstrap plus
`CreateProduct`/`CreateInventory` seeding (the seeder inserts every
inventory row with `Reserved: 0`), before any reserve or release call. -/
def InitialLedger (s : Ledger) : Prop :=
  s.reservations = [] ∧
  s.inventory.Pairwise (fun a b => a.productId ≠ b.productId) ∧
  ∀ inv ∈ s.inventory, inv.reserved = 0 ∧ 0 ≤ inv.quantity

/-- Ledger states reachable from a freshly provisioned ledger through
the reservation engine's two write operations. -/
inductive Reachable : Ledger → Prop where
  | init {s : Ledger} : InitialLedger s → Reachable s
  | reserve {s s' : Ledger} {productId orderId : String} {quantity : Int} {now : Nat} :
      Reachable s → reserveStock s productId quantity orderId now = .ok s' → Reachable s'
  | release {s s' : Ledger} {productId orderId : String} {quantity : Int} {now : Nat} :
      Reachable s → releaseStock s productId quantity orderId now = .ok s' → Reachable s'

/-- The spec's stated invariant: `0 ≤ reserved ≤ quantity` for every
product. -/
def ledgerInvariant (s : Ledger) : Prop :=
  ∀ inv ∈ s.inventory, 0 ≤ inv.reserved ∧ inv.reserved ≤ inv.quantity

/-- Failure results of `inventoryService` operations
(inventory-service/service/inventory_service.go): input validation,
the service-level availability pre-check, or a repository failure. -/
inductive SvcError where
  | productIdRequired
  | quantityNotPositive
  | orderIdRequired
  | svcInsufficientStock (productId : String)
  | repoFailed (e : RepoError)
  deriving DecidableEq

/-- `inventoryService.ReserveStock`: validate the input, pre-check
availability through `repo.CheckStock` (a plain read outside the
reservation transaction) and fail when it reports the stock
insufficient, then delegate to the repository's `ReserveStock` (whose
current signature threads the order id, per the repository interface and
the service tests). -/
def serviceReserveStock (s : Ledger) (productId : String) (quantity : Int)
    (orderId : String) (now : Nat) : Except SvcError Ledger :=
  if productId = "" then .error .productIdRequired
  else if quantity ≤ 0 then .error .quantityNotPositive
  else if orderId = "" then .error .orderIdRequired
  else if ! checkStock s productId quantity then .error (.svcInsufficientStock productId)
  else (reserveStock s productId quantity orderId now).mapError .repoFailed

/-- `inventoryService.ReleaseStock`: validate the input, then delegate
to the repository's `ReleaseStock`. -/
def serviceReleaseStock (s : Ledger) (productId : String) (quantity : Int)
    (orderId : String) (now : Nat) : Except SvcError Ledger :=
  if productId = "" then .error .productIdRequired
  else if quantity ≤ 0 then .error .quantityNotPositive
  else if orderId = "" then .error .orderIdRequired
  else (releaseStock s productId quantity orderId now).mapError .repoFailed

/-- One row of the `order_items` table, also the in-memory `OrderItem`
entity of the order service.  The Go `float64` price is carried and
compared but never computed over, so it is modelled as an exact
rational. -/
structure OrderItem where
  id : String
  orderId : String
  productId : String
  quantity : Int
  price : Rat
  deriving DecidableEq

/-- The in-memory `Order` entity: id, user, status, line items,
timestamps.  `status` ranges over "pending", "confirmed", "rejected". -/
structure Order where
  id : String
  userId : String
  status : String
  items : List OrderItem
  createdAt : Nat
  updatedAt : Nat
  deriving DecidableEq

/-- One row of the `orders` table (line items live in `order_items`). -/
structure OrderRow where
  id : String
  userId : String
  status : String
  createdAt : Nat
  updatedAt : Nat
  deriving DecidableEq

/-- The order service's database: the `orders` and `order_items`
tables. -/
structure OrderDb where
  orders : List OrderRow
  orderItems : List OrderItem
  deriving DecidableEq

/-- The item-insertion loop of `orderRepository.Create`: assign each
item a generated id when its own is empty (`uuid.New()` is modelled by
an injective-by-index generator `uuid` with a running counter), stamp
the parent order id over `OrderID`, and insert the row.  Returns the
mutated items (the Go code mutates them through the order pointer), the
database, and the advanced counter. -/
def insertItems (uuid : Nat → String) (oid : String) :
    List OrderItem → OrderDb → Nat → List OrderItem × OrderDb × Nat
  | [], db, k => ([], db, k)
  | item :: rest, db, k =>
    let idk : String × Nat := if item.id = "" then (uuid k, k + 1) else (item.id, k)
    let item1 := { item with id := idk.1, orderId := oid }
    let db1 := { db with orderItems := db.orderItems ++ [item1] }
    let next := insertItems uuid oid rest db1 idk.2
    (item1 :: next.1, next.2.1, next.2.2)

/-- `orderRepository.Create` (order-service/repository/postgres.go):
generate an id for the order when empty, set `CreatedAt` and `UpdatedAt`
to the same `now`, insert the order row, then insert every item with an
id of its own and the order's id as parent.  Database faults are not
modelled, so the single transaction always commits. -/
def orderRepoCreate (db : OrderDb) (order : Order) (uuid : Nat → String) (k : Nat)
    (now : Nat) : OrderDb × Order × Nat :=
  let idk : String × Nat := if order.id = "" then (uuid k, k + 1) else (order.id, k)
  let order1 := { order with id := idk.1, createdAt := now, updatedAt := now }
  let db1 := { db with
    orders := db.orders ++ [⟨order1.id, order1.userId, order1.status, now, now⟩] }
  let ins := insertItems uuid order1.id order1.items db1 idk.2
  ({ ins.2.1 with }, { order1 with items := ins.1 }, ins.2.2)

/-- `orderRepository.Update`: stamp `UpdatedAt` on the entity and
rewrite user id, status, and the timestamp on every `orders` row whose
id matches the order's id. -/
def orderRepoUpdate (db : OrderDb) (order : Order) (now : Nat) : OrderDb × Order :=
  ({ db with orders := db.orders.map (fun r =>
      if r.id == order.id then
        { r with userId := order.userId, status := order.status, updatedAt := now }
      else r) },
   { order with updatedAt := now })

/-- One line item of a create-order request. -/
structure OrderItemRequest where
  productId : String
  quantity : Int
  price : Rat
  deriving DecidableEq

/-- A create-order request: user id plus line items. -/
structure CreateOrderRequest where
  userId : String
  items : List OrderItemRequest
  deriving DecidableEq

/-- Failure results of `orderService.CreateOrder`: the validation
errors of `validateCreateOrderRequest`, indexed by the offending item,
and the reservation failure wrapping the first collected error. -/
inductive OrderSvcError where
  | userIdRequired
  | itemsRequired
  | productIdRequiredAt (i : Nat)
  | quantityNotPositiveAt (i : Nat)
  | priceNotPositiveAt (i : Nat)
  | reserveInventoryFailed (first : SvcError)
  deriving DecidableEq

/-- The per-item loop of `validateCreateOrderRequest`, reporting the
first invalid item with its index. -/
def validateItems : Nat → List OrderItemRequest → Option OrderSvcError
  | _, [] => none
  | i, item :: rest =>
    if item.productId = "" then some (.productIdRequiredAt i)
    else if item.quantity ≤ 0 then some (.quantityNotPositiveAt i)
    else if item.price ≤ 0 then some (.priceNotPositiveAt i)
    else validateItems (i + 1) rest

/-- `validateCreateOrderRequest`: non-empty user id, at least one item,
every item with a product id, a positive quantity, and a positive
price. -/
def validateCreateOrderRequest (req : CreateOrderRequest) : Option OrderSvcError :=
  if req.userId = "" then some .userIdRequired
  else if req.items = [] then some .itemsRequired
  else validateItems 0 req.items

/-- The in-memory order `CreateOrder` builds before persisting: empty
id, the request's user, status "pending", and the request items with
empty ids. -/
def initialOrder (req : CreateOrderRequest) : Order :=
  { id := ""
    userId := req.userId
    status := "pending"
    items := req.items.map (fun it =>
      { id := "", orderId := "", productId := it.productId,
        quantity := it.quantity, price := it.price })
    createdAt := 0
    updatedAt := 0 }

/-- The reservation loop of `CreateOrder`: one
`inventoryClient.ReserveStock` call per line item in list order (the
remote call reaches `serviceReserveStock`), continuing past failures and
collecting every error in order. -/
def reservePhase (orderId : String) (now : Nat) :
    Ledger → List OrderItem → Ledger × List SvcError
  | l, [] => (l, [])
  | l, item :: rest =>
    match serviceReserveStock l item.productId item.quantity orderId now with
    | .ok l1 => reservePhase orderId now l1 rest
    | .error e =>
      let next := reservePhase orderId now l rest
      (next.1, e :: next.2)

/-- The compensation loop of `CreateOrder`: one
`inventoryClient.ReleaseStock` call per line item, errors ignored. -/
def releasePhase (orderId : String) (now : Nat) : Ledger → List OrderItem → Ledger
  | l, [] => l
  | l, item :: rest =>
    match serviceReleaseStock l item.productId item.quantity orderId now with
    | .ok l1 => releasePhase orderId now l1 rest
    | .error _ => releasePhase orderId now l rest

/-- The two services' combined persistent state: the order database and
the stock ledger. -/
structure World where
  orderDb : OrderDb
  ledger : Ledger
  deriving DecidableEq

/-- `orderService.CreateOrder`
(order-service/service/order_service.go): validate, persist the order
as "pending", reserve stock for every item collecting all errors, then
either release every item, persist "rejected" and return the first
reservation error, or persist "confirmed" and return the order.
`tCreate`, `tReserve`, `tUpdate` model the `time.Now()` reads of the
successive steps; the result carries the final world, the advanced uuid
counter, and the returned order or error. -/
def createOrder (w : World) (req : CreateOrderRequest) (uuid : Nat → String) (k : Nat)
    (tCreate tReserve tUpdate : Nat) : World × Nat × Except OrderSvcError Order :=
  match validateCreateOrderRequest req with
  | some e => (w, k, .error e)
  | none =>
    let created := orderRepoCreate w.orderDb (initialOrder req) uuid k tCreate
    let db1 := created.1
    let order1 := created.2.1
    let k1 := created.2.2
    match reservePhase order1.id tReserve w.ledger order1.items with
    | (ledger1, []) =>
      let order2 := { order1 with status := "confirmed" }
      let updated := orderRepoUpdate db1 order2 tUpdate
      (⟨updated.1, ledger1⟩, k1, .ok updated.2)
    | (ledger1, e :: _) =>
      let ledger2 := releasePhase order1.id tReserve ledger1 order1.items
      let order2 := { order1 with status := "rejected" }
      let updated := orderRepoUpdate db1 order2 tUpdate
      (⟨updated.1, ledger2⟩, k1, .error (.reserveInventoryFailed e))

example :
    reserveStock ⟨[⟨"p", 10, 0, 0⟩], []⟩ "p" 7 "A" 1 =
      .ok ⟨[⟨"p", 10, 7, 1⟩], [⟨"A", "p", 7⟩]⟩ := rfl

example :
    reserveStock ⟨[⟨"p", 10, 7, 1⟩], [⟨"A", "p", 7⟩]⟩ "p" 7 "A" 2 =
      .error (.insufficientStock 3 7) := rfl

example :
    releaseStock ⟨[⟨"p", 10, 7, 1⟩], [⟨"A", "p", 7⟩]⟩ "p" 100 "A" 2 =
      .ok ⟨[⟨"p", 10, 0, 2⟩], []⟩ := rfl

theorem isResvFor_iff {o p : String} {r : Reservation} :
    isResvFor o p r = true ↔ r.orderId = o ∧ r.productId = p := by
  simp [isResvFor]

theorem isResvFor_false {o p : String} {r : Reservation}
    (h : isResvFor o p r = false) : ¬(r.orderId = o ∧ r.productId = p) := by
  intro hc
  rw [← isResvFor_iff] at hc
  rw [h] at hc
  cases hc

@[simp] theorem resvSet_orderId {o p : String} {q : Int} {r : Reservation} :
    (resvSet o p q r).orderId = r.orderId := by
  unfold resvSet; split <;> rfl

@[simp] theorem resvSet_productId {o p : String} {q : Int} {r : Reservation} :
    (resvSet o p q r).productId = r.productId := by
  unfold resvSet; split <;> rfl

@[simp] theorem isResvFor_resvSet {o p o' p' : String} {q : Int} {r : Reservation} :
    isResvFor o p (resvSet o' p' q r) = isResvFor o p r := by
  simp [isResvFor]

@[simp] theorem invAdjust_productId {p : String} {f : Int → Int} {now : Nat}
    {r : Inventory} : (invAdjust p f now r).productId = r.productId := by
  unfold invAdjust; split <;> rfl

@[simp] theorem resvSum_nil {p : String} : resvSum [] p = 0 := rfl

@[simp] theorem resvSum_cons {r : Reservation} {rs : List Reservation} {p : String} :
    resvSum (r :: rs) p =
      if r.productId = p then r.quantity + resvSum rs p else resvSum rs p := rfl

theorem resvSum_append {l₁ l₂ : List Reservation} {p : String} :
    resvSum (l₁ ++ l₂) p = resvSum l₁ p + resvSum l₂ p := by
  induction l₁ with
  | nil => simp
  | cons r rs ih =>
    by_cases h : r.productId = p
    · simp [h, ih]
      ring
    · simp [h, ih]

theorem resvSum_nonneg {rs : List Reservation} {p : String}
    (h : ∀ r ∈ rs, 0 ≤ r.quantity) : 0 ≤ resvSum rs p := by
  induction rs with
  | nil => simp
  | cons r rs ih =>
    have h0 := h r (by simp)
    have ih' := ih (fun x hx => h x (List.mem_cons_of_mem _ hx))
    by_cases hp : r.productId = p <;> simp [hp] <;> omega

theorem reservedByOrder_cons {r : Reservation} {rs : List Reservation} {o p : String} :
    reservedByOrder (r :: rs) o p =
      if isResvFor o p r then r.quantity else reservedByOrder rs o p := by
  by_cases h : isResvFor o p r <;>
    simp [reservedByOrder, List.find?_cons_of_pos, List.find?_cons_of_neg, h]

theorem reservedByOrder_nonneg {rs : List Reservation} {o p : String}
    (h : ∀ r ∈ rs, 0 ≤ r.quantity) : 0 ≤ reservedByOrder rs o p := by
  unfold reservedByOrder
  cases hf : rs.find? (isResvFor o p) with
  | none => simp
  | some r0 =>
    have := h r0 (List.mem_of_find?_eq_some hf)
    simpa using this

theorem reservedByOrder_eq_find {rs : List Reservation} {o p : String} {r0 : Reservation}
    (hf : rs.find? (isResvFor o p) = some r0) :
    reservedByOrder rs o p = r0.quantity := by
  simp [reservedByOrder, hf]

theorem inv_eq_of_same_product {l : List Inventory}
    (h : l.Pairwise (fun a b => a.productId ≠ b.productId))
    {a b : Inventory} (ha : a ∈ l) (hb : b ∈ l) (hk : a.productId = b.productId) :
    a = b := by
  induction l with
  | nil => cases ha
  | cons x xs ih =>
    rw [List.pairwise_cons] at h
    obtain ⟨hx, hxs⟩ := h
    rcases List.mem_cons.mp ha with rfl | ha'
    · rcases List.mem_cons.mp hb with rfl | hb'
      · rfl
      · exact absurd hk (hx b hb')
    · rcases List.mem_cons.mp hb with rfl | hb'
      · exact absurd hk.symm (hx a ha')
      · exact ih hxs ha' hb'

theorem no_other_key {rs : List Reservation} {r : Reservation} {o p : String}
    (hpw : (r :: rs).Pairwise resvKeyNe) (hm : isResvFor o p r = true) :
    ∀ b ∈ rs, isResvFor o p b = false := by
  rw [List.pairwise_cons] at hpw
  obtain ⟨ho, hp⟩ := isResvFor_iff.mp hm
  intro b hb
  rcases hpw.1 b hb with hne | hne
  · rw [Bool.eq_false_iff]
    intro hc
    exact hne (ho.trans (isResvFor_iff.mp hc).1.symm)
  · rw [Bool.eq_false_iff]
    intro hc
    exact hne (hp.trans (isResvFor_iff.mp hc).2.symm)

theorem updateResvQty_id {rs : List Reservation} {o p : String} {q : Int}
    (h : ∀ b ∈ rs, isResvFor o p b = false) : updateResvQty rs o p q = rs := by
  induction rs with
  | nil => rfl
  | cons r rs ih =>
    have hr := h r (by simp)
    have ih' := ih (fun b hb => h b (List.mem_cons_of_mem _ hb))
    unfold updateResvQty at *
    simp only [List.map_cons, ih']
    unfold resvSet
    rw [hr]
    simp

theorem updateResvQty_self {rs : List Reservation} {o p : String} {q : Int}
    (h : ∀ b ∈ rs, isResvFor o p b = true → b.quantity = q) :
    updateResvQty rs o p q = rs := by
  induction rs with
  | nil => rfl
  | cons r rs ih =>
    have ih' := ih (fun b hb hm => h b (List.mem_cons_of_mem _ hb) hm)
    unfold updateResvQty at *
    simp only [List.map_cons, ih']
    unfold resvSet
    by_cases hm : isResvFor o p r = true
    · rw [if_pos hm, ← h r (by simp) hm]
    · rw [if_neg hm]

theorem resvSum_updateResvQty {rs : List Reservation} {o p : String} {q : Int}
    (hpw : rs.Pairwise resvKeyNe) {r0 : Reservation}
    (hfind : rs.find? (isResvFor o p) = some r0) :
    resvSum (updateResvQty rs o p q) p = resvSum rs p - r0.quantity + q := by
  induction rs with
  | nil => simp at hfind
  | cons r rs ih =>
    by_cases hm : isResvFor o p r = true
    · rw [List.find?_cons_of_pos _ hm] at hfind
      injection hfind with hr0
      subst hr0
      have hid := updateResvQty_id (q := q) (no_other_key hpw hm)
      have hp : r.productId = p := (isResvFor_iff.mp hm).2
      unfold updateResvQty at *
      simp only [List.map_cons, hid]
      unfold resvSet
      rw [if_pos hm]
      simp only [resvSum_cons, hp, eq_self_iff_true, if_true]
      omega
    · rw [List.find?_cons_of_neg _ hm] at hfind
      rw [List.pairwise_cons] at hpw
      have ih' := ih hpw.2 hfind
      have hhead : resvSet o p q r = r := by unfold resvSet; rw [if_neg hm]
      unfold updateResvQty at *
      simp only [List.map_cons, hhead]
      simp only [resvSum_cons]
      by_cases hp : r.productId = p
      · rw [if_pos hp, if_pos hp, ih']
        omega
      · rw [if_neg hp, if_neg hp, ih']

theorem resvSum_updateResvQty_ne {rs : List Reservation} {o p p' : String} {q : Int}
    (hne : p' ≠ p) :
    resvSum (updateResvQty rs o p q) p' = resvSum rs p' := by
  induction rs with
  | nil => rfl
  | cons r rs ih =>
    unfold updateResvQty at *
    by_cases hm : isResvFor o p r = true
    · have hp : r.productId = p := (isResvFor_iff.mp hm).2
      have hnp : ¬ r.productId = p' := by rw [hp]; exact fun hc => hne hc.symm
      simp only [List.map_cons, resvSum_cons, resvSet_productId, ih]
      rw [if_neg hnp, if_neg hnp]
    · have hhead : resvSet o p q r = r := by unfold resvSet; rw [if_neg hm]
      simp only [List.map_cons, hhead, resvSum_cons, ih]

theorem find?_updateResvQty {rs : List Reservation} {o p : String} {q : Int} :
    (updateResvQty rs o p q).find? (isResvFor o p) =
      (rs.find? (isResvFor o p)).map (resvSet o p q) := by
  unfold updateResvQty
  rw [List.find?_map]
  have hfn : (isResvFor o p ∘ resvSet o p q) = isResvFor o p := by
    funext r
    simp [Function.comp]
  rw [hfn]

theorem pairwise_updateResvQty {rs : List Reservation} {o p : String} {q : Int}
    (h : rs.Pairwise resvKeyNe) :
    (updateResvQty rs o p q).Pairwise resvKeyNe := by
  unfold updateResvQty
  rw [List.pairwise_map]
  exact h.imp (fun hab => by unfold resvKeyNe at *; simpa using hab)

theorem nonneg_updateResvQty {rs : List Reservation} {o p : String} {q : Int}
    (hq : 0 ≤ q) (h : ∀ r ∈ rs, 0 ≤ r.quantity) :
    ∀ r ∈ updateResvQty rs o p q, 0 ≤ r.quantity := by
  intro r hr
  unfold updateResvQty at hr
  obtain ⟨r0, hr0, rfl⟩ := List.mem_map.mp hr
  unfold resvSet
  split
  · exact hq
  · exact h r0 hr0

theorem not_any_of_find?_none {rs : List Reservation} {o p : String}
    (h : rs.any (isResvFor o p) = false) :
    rs.find? (isResvFor o p) = none ∧ reservedByOrder rs o p = 0 := by
  have hnone : rs.find? (isResvFor o p) = none :=
    List.find?_eq_none.mpr (List.any_eq_false.mp h)
  exact ⟨hnone, by simp [reservedByOrder, hnone]⟩

theorem exists_find_of_any {rs : List Reservation} {o p : String}
    (h : rs.any (isResvFor o p) = true) :
    ∃ r0, rs.find? (isResvFor o p) = some r0 := by
  have : (rs.find? (isResvFor o p)).isSome := List.find?_isSome.mpr (List.any_eq_true.mp h)
  exact Option.isSome_iff_exists.mp this

theorem resvSum_upsert {rs : List Reservation} {o p : String} {q : Int}
    (hpw : rs.Pairwise resvKeyNe) :
    resvSum (upsertReservation rs o p q) p =
      resvSum rs p - reservedByOrder rs o p + q := by
  unfold upsertReservation
  by_cases hany : rs.any (isResvFor o p) = true
  · rw [if_pos hany]
    obtain ⟨r0, hr0⟩ := exists_find_of_any hany
    rw [resvSum_updateResvQty hpw hr0, reservedByOrder_eq_find hr0]
  · rw [if_neg hany]
    have hfalse : rs.any (isResvFor o p) = false := by
      exact Bool.eq_false_iff.mpr hany
    obtain ⟨-, hzero⟩ := not_any_of_find?_none hfalse
    rw [resvSum_append, hzero]
    simp

theorem resvSum_upsert_ne {rs : List Reservation} {o p p' : String} {q : Int}
    (hne : p' ≠ p) :
    resvSum (upsertReservation rs o p q) p' = resvSum rs p' := by
  unfold upsertReservation
  by_cases hany : rs.any (isResvFor o p) = true
  · rw [if_pos hany, resvSum_updateResvQty_ne hne]
  · rw [if_neg hany, resvSum_append]
    have hnp : ¬ p = p' := fun hc => hne hc.symm
    simp [hnp]

theorem reservedByOrder_upsert {rs : List Reservation} {o p : String} {q : Int} :
    reservedByOrder (upsertReservation rs o p q) o p = q := by
  unfold upsertReservation
  by_cases hany : rs.any (isResvFor o p) = true
  · rw [if_pos hany]
    obtain ⟨r0, hr0⟩ := exists_find_of_any hany
    have hm : isResvFor o p r0 = true := List.find?_some hr0
    unfold reservedByOrder
    rw [find?_updateResvQty, hr0]
    simp [resvSet, hm]
  · rw [if_neg hany]
    have hfalse : rs.any (isResvFor o p) = false := Bool.eq_false_iff.mpr hany
    obtain ⟨hnone, -⟩ := not_any_of_find?_none hfalse
    unfold reservedByOrder
    rw [List.find?_append, hnone]
    simp [isResvFor]

theorem pairwise_upsert {rs : List Reservation} {o p : String} {q : Int}
    (h : rs.Pairwise resvKeyNe) :
    (upsertReservation rs o p q).Pairwise resvKeyNe := by
  unfold upsertReservation
  by_cases hany : rs.any (isResvFor o p) = true
  · rw [if_pos hany]
    exact pairwise_updateResvQty h
  · rw [if_neg hany]
    have hfalse : rs.any (isResvFor o p) = false := Bool.eq_false_iff.mpr hany
    rw [List.pairwise_append]
    refine ⟨h, by simp, ?_⟩
    intro a ha b hb
    simp only [List.mem_singleton] at hb
    subst hb
    have hna := List.any_eq_false.mp hfalse a ha
    have := isResvFor_false (Bool.eq_false_iff.mpr hna)
    unfold resvKeyNe
    by_cases ho : a.orderId = o
    · right
      intro hc
      exact this ⟨ho, hc⟩
    · left
      exact ho

theorem nonneg_upsert {rs : List Reservation} {o p : String} {q : Int}
    (hq : 0 ≤ q) (h : ∀ r ∈ rs, 0 ≤ r.quantity) :
    ∀ r ∈ upsertReservation rs o p q, 0 ≤ r.quantity := by
  intro r hr
  unfold upsertReservation at hr
  by_cases hany : rs.any (isResvFor o p) = true
  · rw [if_pos hany] at hr
    exact nonneg_updateResvQty hq h r hr
  · rw [if_neg hany] at hr
    rcases List.mem_append.mp hr with hr' | hr'
    · exact h r hr'
    · simp only [List.mem_singleton] at hr'
      subst hr'
      exact hq

theorem resvSum_filterKey {rs : List Reservation} {o p : String}
    (hpw : rs.Pairwise resvKeyNe) :
    resvSum (rs.filter (fun r => ! isResvFor o p r)) p =
      resvSum rs p - reservedByOrder rs o p := by
  induction rs with
  | nil => simp [reservedByOrder]
  | cons r rs ih =>
    by_cases hm : isResvFor o p r = true
    · have hp : r.productId = p := (isResvFor_iff.mp hm).2
      have hnone := no_other_key hpw hm
      have hfix : rs.filter (fun r => ! isResvFor o p r) = rs :=
        List.filter_eq_self.mpr (fun b hb => by simp [hnone b hb])
      have hcond : ¬ ((! isResvFor o p r) = true) := by simp [hm]
      rw [List.filter_cons, if_neg hcond, reservedByOrder_cons, if_pos hm, hfix,
        resvSum_cons, if_pos hp]
      omega
    · rw [List.pairwise_cons] at hpw
      have ih' := ih hpw.2
      have hmb : (! isResvFor o p r) = true := by simp [hm]
      rw [List.filter_cons, if_pos hmb, reservedByOrder_cons, if_neg hm,
        resvSum_cons, resvSum_cons]
      by_cases hp : r.productId = p
      · rw [if_pos hp, if_pos hp, ih']
        omega
      · rw [if_neg hp, if_neg hp, ih']

theorem resvSum_filterKey_ne {rs : List Reservation} {o p p' : String}
    (hne : p' ≠ p) :
    resvSum (rs.filter (fun r => ! isResvFor o p r)) p' = resvSum rs p' := by
  induction rs with
  | nil => rfl
  | cons r rs ih =>
    by_cases hm : isResvFor o p r = true
    · have hp : r.productId = p := (isResvFor_iff.mp hm).2
      have hnp : ¬ r.productId = p' := by rw [hp]; exact fun hc => hne hc.symm
      have hcond : ¬ ((! isResvFor o p r) = true) := by simp [hm]
      rw [List.filter_cons, if_neg hcond, ih, resvSum_cons, if_neg hnp]
    · have hmb : (! isResvFor o p r) = true := by simp [hm]
      rw [List.filter_cons, if_pos hmb, resvSum_cons, resvSum_cons, ih]

theorem find?_filterKey_none {rs : List Reservation} {o p : String} :
    (rs.filter (fun r => ! isResvFor o p r)).find? (isResvFor o p) = none := by
  rw [List.find?_eq_none]
  intro x hx
  have := (List.mem_filter.mp hx).2
  simp only [Bool.not_eq_true'] at this
  simp [this]

theorem findInventory_some {rows : List Inventory} {p : String} {inv : Inventory}
    (h : findInventory rows p = some inv) : inv ∈ rows ∧ inv.productId = p := by
  refine ⟨List.mem_of_find?_eq_some h, ?_⟩
  have := List.find?_some h
  simpa using this

theorem findInventory_adjust {rows : List Inventory} {p p' : String} {f : Int → Int}
    {now : Nat} :
    findInventory (adjustInventory rows p f now) p' =
      (findInventory rows p').map (invAdjust p f now) := by
  unfold findInventory adjustInventory
  rw [List.find?_map]
  have hfn : ((fun r : Inventory => r.productId == p') ∘ invAdjust p f now) =
      (fun r : Inventory => r.productId == p') := by
    funext r
    simp [Function.comp]
  rw [hfn]

theorem pairwise_adjustInventory {rows : List Inventory} {p : String} {f : Int → Int}
    {now : Nat} (h : rows.Pairwise (fun a b => a.productId ≠ b.productId)) :
    (adjustInventory rows p f now).Pairwise (fun a b => a.productId ≠ b.productId) := by
  unfold adjustInventory
  rw [List.pairwise_map]
  exact h.imp (fun hab => by simpa using hab)

theorem reserveStock_ok {s s' : Ledger} {p o : String} {q : Int} {now : Nat}
    (h : reserveStock s p q o now = .ok s') :
    ∃ inv, findInventory s.inventory p = some inv ∧
      q ≤ inv.quantity - inv.reserved ∧
      0 ≤ q - reservedByOrder s.reservations o p ∧
      s' = { inventory :=
               if 0 < q - reservedByOrder s.reservations o p then
                 adjustInventory s.inventory p
                   (fun x => x + (q - reservedByOrder s.reservations o p)) now
               else s.inventory,
             reservations := upsertReservation s.reservations o p q } := by
  unfold reserveStock at h
  cases hfind : findInventory s.inventory p with
  | none => rw [hfind] at h; cases h
  | some inv =>
    rw [hfind] at h
    simp only at h
    by_cases hav : inv.quantity - inv.reserved < q
    · rw [if_pos hav] at h; cases h
    · rw [if_neg hav] at h
      by_cases hd : q - reservedByOrder s.reservations o p < 0
      · rw [if_pos hd] at h; cases h
      · rw [if_neg hd] at h
        injection h with h'
        exact ⟨inv, rfl, by omega, by omega, h'.symm⟩

theorem reserveStock_ok_of {s : Ledger} {p o : String} {q : Int} {now : Nat}
    {inv : Inventory} (hfind : findInventory s.inventory p = some inv)
    (hav : q ≤ inv.quantity - inv.reserved)
    (hd : 0 ≤ q - reservedByOrder s.reservations o p) :
    reserveStock s p q o now =
      .ok { inventory :=
              if 0 < q - reservedByOrder s.reservations o p then
                adjustInventory s.inventory p
                  (fun x => x + (q - reservedByOrder s.reservations o p)) now
              else s.inventory,
            reservations := upsertReservation s.reservations o p q } := by
  unfold reserveStock
  rw [hfind]
  simp only
  rw [if_neg (by omega), if_neg (by omega)]

theorem releaseStock_ok {s s' : Ledger} {p o : String} {q : Int} {now : Nat}
    (h : releaseStock s p q o now = .ok s') :
    ∃ inv, findInventory s.inventory p = some inv ∧
      ((min q (reservedByOrder s.reservations o p) ≤ 0 ∧ s' = s) ∨
       (0 < min q (reservedByOrder s.reservations o p) ∧
        s' = { inventory := adjustInventory s.inventory p
                 (fun x => x - min q (reservedByOrder s.reservations o p)) now,
               reservations :=
                 if 0 < reservedByOrder s.reservations o p -
                     min q (reservedByOrder s.reservations o p) then
                   updateResvQty s.reservations o p
                     (reservedByOrder s.reservations o p -
                       min q (reservedByOrder s.reservations o p))
                 else s.reservations.filter (fun r => ! isResvFor o p r) })) := by
  unfold releaseStock at h
  cases hfind : findInventory s.inventory p with
  | none => rw [hfind] at h; cases h
  | some inv =>
    rw [hfind] at h
    simp only at h
    have hminEq : (if reservedByOrder s.reservations o p < q then
        reservedByOrder s.reservations o p else q) =
        min q (reservedByOrder s.reservations o p) := by
      rcases lt_or_ge (reservedByOrder s.reservations o p) q with hlt | hge
      · rw [if_pos hlt]
        omega
      · rw [if_neg (by omega)]
        omega
    rw [hminEq] at h
    refine ⟨inv, rfl, ?_⟩
    by_cases hamt : min q (reservedByOrder s.reservations o p) ≤ 0
    · rw [if_pos hamt] at h
      injection h with h'
      exact Or.inl ⟨hamt, h'.symm⟩
    · rw [if_neg hamt] at h
      injection h with h'
      exact Or.inr ⟨by omega, h'.symm⟩

theorem releaseStock_ok_of {s : Ledger} {p o : String} {q : Int} {now : Nat}
    {inv : Inventory} (hfind : findInventory s.inventory p = some inv)
    (hamt : 0 < min q (reservedByOrder s.reservations o p)) :
    releaseStock s p q o now =
      .ok { inventory := adjustInventory s.inventory p
              (fun x => x - min q (reservedByOrder s.reservations o p)) now,
            reservations :=
              if 0 < reservedByOrder s.reservations o p -
                  min q (reservedByOrder s.reservations o p) then
                updateResvQty s.reservations o p
                  (reservedByOrder s.reservations o p -
                    min q (reservedByOrder s.reservations o p))
              else s.reservations.filter (fun r => ! isResvFor o p r) } := by
  unfold releaseStock
  rw [hfind]
  simp only
  have hminEq : (if reservedByOrder s.reservations o p < q then
      reservedByOrder s.reservations o p else q) =
      min q (reservedByOrder s.reservations o p) := by
    rcases lt_or_ge (reservedByOrder s.reservations o p) q with hlt | hge
    · rw [if_pos hlt]
      omega
    · rw [if_neg (by omega)]
      omega
  rw [hminEq, if_neg (by omega)]

theorem releaseStock_noop_of {s : Ledger} {p o : String} {q : Int} {now : Nat}
    {inv : Inventory} (hfind : findInventory s.inventory p = some inv)
    (hamt : min q (reservedByOrder s.reservations o p) ≤ 0) :
    releaseStock s p q o now = .ok s := by
  unfold releaseStock
  rw [hfind]
  simp only
  have hminEq : (if reservedByOrder s.reservations o p < q then
      reservedByOrder s.reservations o p else q) =
      min q (reservedByOrder s.reservations o p) := by
    rcases lt_or_ge (reservedByOrder s.reservations o p) q with hlt | hge
    · rw [if_pos hlt]
      omega
    · rw [if_neg (by omega)]
      omega
  rw [hminEq, if_pos (by omega)]

theorem WF_reserveStock {s s' : Ledger} {p o : String} {q : Int} {now : Nat}
    (hwf : WF s) (h : reserveStock s p q o now = .ok s') : WF s' := by
  obtain ⟨hik, hrk, hnn, hrows⟩ := hwf
  obtain ⟨inv, hfind, hav, hd, rfl⟩ := reserveStock_ok h
  obtain ⟨hinvMem, hinvPid⟩ := findInventory_some hfind
  have hprevNN : 0 ≤ reservedByOrder s.reservations o p := reservedByOrder_nonneg hnn
  have hqNN : 0 ≤ q := by omega
  refine ⟨?_, pairwise_upsert hrk, nonneg_upsert hqNN hnn, ?_⟩
  · by_cases hdpos : 0 < q - reservedByOrder s.reservations o p
    · simp only [if_pos hdpos]
      exact pairwise_adjustInventory hik
    · simp only [if_neg hdpos]
      exact hik
  · intro inv' hmem
    by_cases hdpos : 0 < q - reservedByOrder s.reservations o p
    · simp only [if_pos hdpos] at hmem
      unfold adjustInventory at hmem
      obtain ⟨inv0, hinv0, rfl⟩ := List.mem_map.mp hmem
      have h0 := hrows inv0 hinv0
      by_cases hp0 : inv0.productId = p
      · have hinv0eq : inv0 = inv :=
          inv_eq_of_same_product hik hinv0 hinvMem (by rw [hp0, hinvPid])
        have hadj : invAdjust p (fun x => x + (q - reservedByOrder s.reservations o p))
            now inv0 =
            { inv0 with reserved := inv0.reserved + (q - reservedByOrder s.reservations o p),
                        updatedAt := now } := by
          unfold invAdjust
          rw [if_pos (by simp [hp0])]
        rw [hadj]
        constructor
        · show inv0.reserved + (q - reservedByOrder s.reservations o p) =
            resvSum (upsertReservation s.reservations o p q) inv0.productId
          rw [hp0, resvSum_upsert hrk]
          have h1 := h0.1
          rw [hp0] at h1
          omega
        · show inv0.reserved + (q - reservedByOrder s.reservations o p) ≤ inv0.quantity
          rw [hinv0eq]
          omega
      · have hadj : invAdjust p (fun x => x + (q - reservedByOrder s.reservations o p))
            now inv0 = inv0 := by
          unfold invAdjust
          rw [if_neg (by simp [hp0])]
        rw [hadj]
        exact ⟨by rw [resvSum_upsert_ne hp0]; exact h0.1, h0.2⟩
    · simp only [if_neg hdpos] at hmem
      have h0 := hrows inv' hmem
      by_cases hp0 : inv'.productId = p
      · refine ⟨?_, h0.2⟩
        rw [hp0, resvSum_upsert hrk]
        have h1 := h0.1
        rw [hp0] at h1
        omega
      · exact ⟨by rw [resvSum_upsert_ne hp0]; exact h0.1, h0.2⟩

theorem WF_releaseStock {s s' : Ledger} {p o : String} {q : Int} {now : Nat}
    (hwf : WF s) (h : releaseStock s p q o now = .ok s') : WF s' := by
  obtain ⟨hik, hrk, hnn, hrows⟩ := hwf
  obtain ⟨inv, hfind, hcase⟩ := releaseStock_ok h
  rcases hcase with ⟨-, rfl⟩ | ⟨hamt, rfl⟩
  · exact ⟨hik, hrk, hnn, hrows⟩
  · have hle : min q (reservedByOrder s.reservations o p) ≤
        reservedByOrder s.reservations o p := min_le_right _ _
    have hrByPos : 0 < reservedByOrder s.reservations o p := by omega
    obtain ⟨r0, hr0⟩ : ∃ r0, s.reservations.find? (isResvFor o p) = some r0 := by
      cases hf : s.reservations.find? (isResvFor o p) with
      | none =>
        exfalso
        have : reservedByOrder s.reservations o p = 0 := by simp [reservedByOrder, hf]
        omega
      | some r0 => exact ⟨r0, rfl⟩
    have hr0q : r0.quantity = reservedByOrder s.reservations o p :=
      (reservedByOrder_eq_find hr0).symm
    refine ⟨pairwise_adjustInventory hik, ?_, ?_, ?_⟩
    · by_cases hrem : 0 < reservedByOrder s.reservations o p -
          min q (reservedByOrder s.reservations o p)
      · simp only [if_pos hrem]
        exact pairwise_updateResvQty hrk
      · simp only [if_neg hrem]
        exact List.Pairwise.filter _ hrk
    · by_cases hrem : 0 < reservedByOrder s.reservations o p -
          min q (reservedByOrder s.reservations o p)
      · simp only [if_pos hrem]
        exact nonneg_updateResvQty (by omega) hnn
      · simp only [if_neg hrem]
        intro r hr
        exact hnn r (List.mem_filter.mp hr).1
    · intro inv' hmem
      unfold adjustInventory at hmem
      obtain ⟨inv0, hinv0, rfl⟩ := List.mem_map.mp hmem
      have h0 := hrows inv0 hinv0
      by_cases hp0 : inv0.productId = p
      · have hadj : invAdjust p (fun x => x - min q (reservedByOrder s.reservations o p))
            now inv0 =
            { inv0 with reserved := inv0.reserved -
                          min q (reservedByOrder s.reservations o p),
                        updatedAt := now } := by
          unfold invAdjust
          rw [if_pos (by simp [hp0])]
        rw [hadj]
        constructor
        · show inv0.reserved - min q (reservedByOrder s.reservations o p) =
            resvSum (if 0 < reservedByOrder s.reservations o p -
                min q (reservedByOrder s.reservations o p) then
                updateResvQty s.reservations o p
                  (reservedByOrder s.reservations o p -
                    min q (reservedByOrder s.reservations o p))
              else s.reservations.filter (fun r => ! isResvFor o p r)) inv0.productId
          have h1 := h0.1
          rw [hp0] at h1 ⊢
          by_cases hrem : 0 < reservedByOrder s.reservations o p -
              min q (reservedByOrder s.reservations o p)
          · rw [if_pos hrem, resvSum_updateResvQty hrk hr0]
            omega
          · rw [if_neg hrem, resvSum_filterKey hrk]
            omega
        · show inv0.reserved - min q (reservedByOrder s.reservations o p) ≤ inv0.quantity
          omega
      · have hadj : invAdjust p (fun x => x - min q (reservedByOrder s.reservations o p))
            now inv0 = inv0 := by
          unfold invAdjust
          rw [if_neg (by simp [hp0])]
        rw [hadj]
        refine ⟨?_, h0.2⟩
        by_cases hrem : 0 < reservedByOrder s.reservations o p -
            min q (reservedByOrder s.reservations o p)
        · rw [if_pos hrem, resvSum_updateResvQty_ne hp0]
          exact h0.1
        · rw [if_neg hrem, resvSum_filterKey_ne hp0]
          exact h0.1

theorem WF_initial {s : Ledger} (h : InitialLedger s) : WF s := by
  obtain ⟨hres, hpw, hrows⟩ := h
  refine ⟨hpw, ?_, ?_, ?_⟩
  · rw [hres]
    exact List.Pairwise.nil
  · rw [hres]
    intro r hr
    cases hr
  · intro inv hmem
    have h0 := hrows inv hmem
    rw [hres]
    exact ⟨by rw [h0.1]; rfl, by omega⟩

theorem WF_reachable {s : Ledger} (h : Reachable s) : WF s := by
  induction h with
  | init h0 => exact WF_initial h0
  | reserve _ hstep ih => exact WF_reserveStock ih hstep
  | release _ hstep ih => exact WF_releaseStock ih hstep

theorem ledgerInvariant_of_WF {s : Ledger} (h : WF s) : ledgerInvariant s := by
  obtain ⟨-, -, hnn, hrows⟩ := h
  intro inv hmem
  have h0 := hrows inv hmem
  have hsum : 0 ≤ resvSum s.reservations inv.productId := resvSum_nonneg hnn
  exact ⟨by rw [h0.1]; exact hsum, h0.2⟩

theorem checkStock_true {s : Ledger} {p : String} {q : Int}
    (h : checkStock s p q = true) :
    ∃ inv, findInventory s.inventory p = some inv ∧ q ≤ inv.quantity - inv.reserved := by
  unfold checkStock at h
  cases hf : findInventory s.inventory p with
  | none => rw [hf] at h; cases h
  | some inv =>
    rw [hf] at h
    exact ⟨inv, rfl, by simpa using h⟩

theorem key_rows_quantity {rs : List Reservation} {o p : String}
    (hpw : rs.Pairwise resvKeyNe) {r0 : Reservation}
    (hfind : rs.find? (isResvFor o p) = some r0) :
    ∀ b ∈ rs, isResvFor o p b = true → b.quantity = r0.quantity := by
  induction rs with
  | nil => simp at hfind
  | cons r rs ih =>
    by_cases hm : isResvFor o p r = true
    · rw [List.find?_cons_of_pos _ hm] at hfind
      injection hfind with hr0
      subst hr0
      intro b hb hbm
      rcases List.mem_cons.mp hb with rfl | hb'
      · rfl
      · exact absurd hbm (by rw [no_other_key hpw hm b hb']; simp)
    · rw [List.find?_cons_of_neg _ hm] at hfind
      rw [List.pairwise_cons] at hpw
      intro b hb hbm
      rcases List.mem_cons.mp hb with rfl | hb'
      · exact absurd hbm hm
      · exact ih hpw.2 hfind b hb' hbm

theorem find?_upsert_isSome {rs : List Reservation} {o p : String} {q : Int} :
    ((upsertReservation rs o p q).find? (isResvFor o p)).isSome = true := by
  unfold upsertReservation
  by_cases hany : rs.any (isResvFor o p) = true
  · rw [if_pos hany]
    obtain ⟨r0, hr0⟩ := exists_find_of_any hany
    rw [find?_updateResvQty, hr0]
    rfl
  · rw [if_neg hany]
    have hfalse : rs.any (isResvFor o p) = false := Bool.eq_false_iff.mpr hany
    obtain ⟨hnone, -⟩ := not_any_of_find?_none hfalse
    rw [List.find?_append, hnone]
    simp [isResvFor]

theorem upsert_absorb {rs : List Reservation} {o p : String} {q : Int}
    (hpw : rs.Pairwise resvKeyNe)
    (hval : reservedByOrder rs o p = q)
    (hsome : (rs.find? (isResvFor o p)).isSome = true) :
    upsertReservation rs o p q = rs := by
  obtain ⟨r0, hr0⟩ := Option.isSome_iff_exists.mp hsome
  have hr0q : r0.quantity = q := by
    rw [← hval, reservedByOrder_eq_find hr0]
  have hany : rs.any (isResvFor o p) = true :=
    List.any_eq_true.mpr ⟨r0, List.mem_of_find?_eq_some hr0, List.find?_some hr0⟩
  unfold upsertReservation
  rw [if_pos hany]
  exact updateResvQty_self (fun b hb hbm => by
    rw [key_rows_quantity hpw hr0 b hb hbm, hr0q])

/-- C1: on every reachable ledger state the invariant `0 ≤ reserved ≤
quantity` holds for every product, and every successful `ReserveStock`
or `ReleaseStock` leads to a reachable state where it still holds; a
failing call returns an error carrying no successor state (the
transaction rolls back), so a Reserve that would push `reserved` above
`quantity` fails before mutating and a Release never drives `reserved`
below zero. -/
theorem reserve_release_preserve_invariant (s : Ledger) (h : Reachable s) :
    ledgerInvariant s ∧
    (∀ p q o now s', reserveStock s p q o now = .ok s' →
      Reachable s' ∧ ledgerInvariant s') ∧
    (∀ p q o now s', releaseStock s p q o now = .ok s' →
      Reachable s' ∧ ledgerInvariant s') := by
  refine ⟨ledgerInvariant_of_WF (WF_reachable h), ?_, ?_⟩
  · intro p q o now s' hs
    have h' : Reachable s' := Reachable.reserve h hs
    exact ⟨h', ledgerInvariant_of_WF (WF_reachable h')⟩
  · intro p q o now s' hs
    have h' : Reachable s' := Reachable.release h hs
    exact ⟨h', ledgerInvariant_of_WF (WF_reachable h')⟩

/-- C1 witness: the seeded one-product ledger is reachable and the
theorem yields the invariant for it and for the state after a concrete
successful reservation. -/
theorem reserve_release_preserve_invariant_witness :
    ledgerInvariant ⟨[⟨"p", 10, 0, 0⟩], []⟩ ∧
    (Reachable (⟨[⟨"p", 10, 7, 1⟩], [⟨"A", "p", 7⟩]⟩ : Ledger) ∧
     ledgerInvariant ⟨[⟨"p", 10, 7, 1⟩], [⟨"A", "p", 7⟩]⟩) := by
  have h0 : Reachable (⟨[⟨"p", 10, 0, 0⟩], []⟩ : Ledger) :=
    Reachable.init (by unfold InitialLedger; decide)
  have hthm := reserve_release_preserve_invariant ⟨[⟨"p", 10, 0, 0⟩], []⟩ h0
  exact ⟨hthm.1, hthm.2.1 "p" 7 "A" 1 ⟨[⟨"p", 10, 7, 1⟩], [⟨"A", "p", 7⟩]⟩ rfl⟩

/-- C2 counterexample: the claim says the second identical
`ReserveStock(p, q, orderX)` call computes `delta = 0` and performs no
ledger change; but the availability check compares `available` against
the full `quantity` argument, not the delta, so when the product is
nearly exhausted the second identical call is rejected with
InsufficientStock before the delta is ever computed (here: quantity 10,
a repeat reservation of 7 sees available 3 < 7).  The ledger is
nevertheless unchanged, because the error path mutates nothing. -/
theorem reserve_repeat_counterexample :
    reserveStock ⟨[⟨"p", 10, 0, 0⟩], []⟩ "p" 7 "A" 1 =
      .ok ⟨[⟨"p", 10, 7, 1⟩], [⟨"A", "p", 7⟩]⟩ ∧
    reserveStock ⟨[⟨"p", 10, 7, 1⟩], [⟨"A", "p", 7⟩]⟩ "p" 7 "A" 2 =
      .error (.insufficientStock 3 7) :=
  ⟨rfl, rfl⟩

/-- C2 (amended): after a successful `ReserveStock(p, q, orderX)`, any
successful repetition with identical arguments returns exactly the same
ledger state (the repeat computes `delta = 0`, skips the inventory
update, and re-upserts the reservation to its existing value); and
whenever the availability check still passes on the new state the
repetition does succeed with that unchanged state.  A repetition can
however fail with InsufficientStock when `available < q` after the
first call, still leaving the ledger unchanged. -/
theorem reserve_repeat_same_ledger {s0 s1 : Ledger} {p o : String} {q : Int}
    {n1 : Nat} (hwf : WF s0) (h1 : reserveStock s0 p q o n1 = .ok s1) :
    (∀ n2 s2, reserveStock s1 p q o n2 = .ok s2 → s2 = s1) ∧
    (checkStock s1 p q = true → ∀ n2, reserveStock s1 p q o n2 = .ok s1) := by
  have hwf1 : WF s1 := WF_reserveStock hwf h1
  obtain ⟨inv, hfind, hav, hd, hs1⟩ := reserveStock_ok h1
  have hresv1 : s1.reservations = upsertReservation s0.reservations o p q := by
    rw [hs1]
  have hrBy1 : reservedByOrder s1.reservations o p = q := by
    rw [hresv1]
    exact reservedByOrder_upsert
  have hsome1 : (s1.reservations.find? (isResvFor o p)).isSome = true := by
    rw [hresv1]
    exact find?_upsert_isSome
  have habsorb : upsertReservation s1.reservations o p q = s1.reservations :=
    upsert_absorb hwf1.2.1 hrBy1 hsome1
  constructor
  · intro n2 s2 h2
    obtain ⟨inv1, hfind1, hav1, hd1, hs2⟩ := reserveStock_ok h2
    rw [hs2, hrBy1, habsorb]
    rw [if_neg (by omega)]
  · intro hchk n2
    obtain ⟨inv1, hfind1, hav1⟩ := checkStock_true hchk
    rw [reserveStock_ok_of hfind1 hav1 (by rw [hrBy1]; omega)]
    rw [hrBy1, habsorb, if_neg (by omega)]

/-- C2 witness: with plenty of stock, repeating `ReserveStock(p, 3, A)`
returns exactly the ledger produced by the first call. -/
theorem reserve_repeat_same_ledger_witness :
    reserveStock ⟨[⟨"p", 10, 3, 1⟩], [⟨"A", "p", 3⟩]⟩ "p" 3 "A" 2 =
      .ok ⟨[⟨"p", 10, 3, 1⟩], [⟨"A", "p", 3⟩]⟩ :=
  (reserve_repeat_same_ledger (by unfold WF; decide)
    (show reserveStock ⟨[⟨"p", 10, 0, 0⟩], []⟩ "p" 3 "A" 1 =
      .ok ⟨[⟨"p", 10, 3, 1⟩], [⟨"A", "p", 3⟩]⟩ from rfl)).2 rfl 2

/-- C4: a release subtracts exactly `min q reservedByOrder` from the
aggregate `reserved` counter, never below zero; when a positive holding
is fully released the reservation row is deleted, when partially
released it is updated to the remainder, and a release against a zero
holding leaves the whole ledger untouched. -/
theorem release_bounded {s : Ledger} {p o : String} {q : Int} {now : Nat}
    {inv : Inventory} (hwf : WF s) (hfind : findInventory s.inventory p = some inv)
    (hq : 0 < q) :
    ∃ s', releaseStock s p q o now = .ok s' ∧
      ∃ inv', findInventory s'.inventory p = some inv' ∧
        inv'.reserved = inv.reserved - min q (reservedByOrder s.reservations o p) ∧
        0 ≤ inv'.reserved ∧
        inv'.quantity = inv.quantity ∧
        (0 < reservedByOrder s.reservations o p →
          reservedByOrder s.reservations o p ≤ q →
          s'.reservations.find? (isResvFor o p) = none) ∧
        (q < reservedByOrder s.reservations o p →
          reservedByOrder s'.reservations o p =
            reservedByOrder s.reservations o p - q) ∧
        (reservedByOrder s.reservations o p ≤ 0 → s' = s) := by
  obtain ⟨hik, hrk, hnn, hrows⟩ := hwf
  have hrByNN : 0 ≤ reservedByOrder s.reservations o p := reservedByOrder_nonneg hnn
  have h0 := hrows inv (findInventory_some hfind).1
  have hpid : inv.productId = p := (findInventory_some hfind).2
  by_cases hrBy0 : reservedByOrder s.reservations o p ≤ 0
  · refine ⟨s, releaseStock_noop_of hfind (by omega), inv, hfind, by omega, ?_, rfl,
      by omega, by omega, fun _ => rfl⟩
    have hsum : 0 ≤ resvSum s.reservations inv.productId := resvSum_nonneg hnn
    omega
  · have hrByPos : 0 < reservedByOrder s.reservations o p := by omega
    obtain ⟨r0, hr0⟩ : ∃ r0, s.reservations.find? (isResvFor o p) = some r0 := by
      cases hf : s.reservations.find? (isResvFor o p) with
      | none =>
        exfalso
        have : reservedByOrder s.reservations o p = 0 := by
          simp [reservedByOrder, hf]
        omega
      | some r0 => exact ⟨r0, rfl⟩
    have hamt : 0 < min q (reservedByOrder s.reservations o p) := by
      rcases min_le_left q (reservedByOrder s.reservations o p) with _
      rcases le_total q (reservedByOrder s.reservations o p) with hle | hle
      · rw [min_eq_left hle]; omega
      · rw [min_eq_right hle]; omega
    refine ⟨_, releaseStock_ok_of hfind hamt, ?_⟩
    have hfind' : findInventory
        (adjustInventory s.inventory p
          (fun x => x - min q (reservedByOrder s.reservations o p)) now) p =
        some (invAdjust p (fun x => x - min q (reservedByOrder s.reservations o p)) now inv) := by
      rw [findInventory_adjust, hfind]
      rfl
    have hadj : invAdjust p (fun x => x - min q (reservedByOrder s.reservations o p)) now inv =
        { inv with reserved := inv.reserved - min q (reservedByOrder s.reservations o p),
                   updatedAt := now } := by
      unfold invAdjust
      rw [if_pos (by simp [hpid])]
    refine ⟨_, hfind', ?_, ?_, ?_, ?_, ?_, by omega⟩
    · rw [hadj]
    · rw [hadj]
      show 0 ≤ inv.reserved - min q (reservedByOrder s.reservations o p)
      have hsum : inv.reserved = resvSum s.reservations p := by rw [← hpid]; exact h0.1
      have hdec := resvSum_filterKey (o := o) (p := p) hrk
      have hfnn : 0 ≤ resvSum (s.reservations.filter (fun r => ! isResvFor o p r)) p :=
        resvSum_nonneg (fun r hr => hnn r (List.mem_filter.mp hr).1)
      have hmin : min q (reservedByOrder s.reservations o p) ≤
          reservedByOrder s.reservations o p := min_le_right _ _
      omega
    · rw [hadj]
    · intro hpos hle
      have hmin : min q (reservedByOrder s.reservations o p) =
          reservedByOrder s.reservations o p := min_eq_right hle
      simp only
      rw [if_neg (by omega)]
      exact find?_filterKey_none
    · intro hlt
      have hmin : min q (reservedByOrder s.reservations o p) = q :=
        min_eq_left (by omega)
      simp only
      rw [if_pos (by omega)]
      unfold reservedByOrder
      rw [find?_updateResvQty, hr0]
      have hm : isResvFor o p r0 = true := List.find?_some hr0
      simp [resvSet, hm, hmin]
      have hq0 := reservedByOrder_eq_find hr0
      omega

/-- C4 witness: releasing 100 of product p when order X holds 4
releases exactly 4, leaves `reserved` at 0, and deletes the reservation
row. -/
theorem release_bounded_witness :
    ∃ s', releaseStock ⟨[⟨"p", 10, 4, 0⟩], [⟨"X", "p", 4⟩]⟩ "p" 100 "X" 1 = .ok s' ∧
      ∃ inv', findInventory s'.inventory "p" = some inv' ∧
        inv'.reserved = (4 : Int) - min 100 (reservedByOrder [⟨"X", "p", 4⟩] "X" "p") ∧
        0 ≤ inv'.reserved ∧
        inv'.quantity = 10 ∧
        (0 < reservedByOrder [⟨"X", "p", 4⟩] "X" "p" →
          reservedByOrder [⟨"X", "p", 4⟩] "X" "p" ≤ 100 →
          s'.reservations.find? (isResvFor "X" "p") = none) ∧
        (100 < reservedByOrder [⟨"X", "p", 4⟩] "X" "p" →
          reservedByOrder s'.reservations "X" "p" =
            reservedByOrder [⟨"X", "p", 4⟩] "X" "p" - 100) ∧
        (reservedByOrder [⟨"X", "p", 4⟩] "X" "p" ≤ 0 →
          s' = ⟨[⟨"p", 10, 4, 0⟩], [⟨"X", "p", 4⟩]⟩) :=
  @release_bounded ⟨[⟨"p", 10, 4, 0⟩], [⟨"X", "p", 4⟩]⟩ "p" "X" 100 1 ⟨"p", 10, 4, 0⟩
    (by unfold WF; decide) rfl (by decide)

/-- C5 counterexample: `Reserve(p, 5, X)` then `Reserve(p, 3, X)` does
not shrink the reservation; the second call computes `delta = 3 - 5 < 0`
and fails with InvalidReservation, leaving `reserved` at 5 and the
reservation row at 5. -/
theorem reserve_then_smaller_counterexample :
    reserveStock ⟨[⟨"p", 10, 0, 0⟩], []⟩ "p" 5 "X" 1 =
      .ok ⟨[⟨"p", 10, 5, 1⟩], [⟨"X", "p", 5⟩]⟩ ∧
    reserveStock ⟨[⟨"p", 10, 5, 1⟩], [⟨"X", "p", 5⟩]⟩ "p" 3 "X" 2 =
      .error .invalidReservation :=
  ⟨rfl, rfl⟩

/-- C5 (amended): after `Reserve(p, q1, X)` succeeds the reservation row
for X reads q1, and a follow-up `Reserve(p, q2, X)` with `q2 < q1` is
rejected with InvalidReservation whenever its availability check passes
(shrinking a reservation is done through Release, not through a smaller
re-reservation); the error path leaves the ledger unchanged. -/
theorem reserve_shrink_rejected {s0 s1 : Ledger} {p o : String} {q1 q2 : Int}
    {n1 : Nat} (h1 : reserveStock s0 p q1 o n1 = .ok s1)
    (hlt : q2 < q1) (hchk : checkStock s1 p q2 = true) :
    reservedByOrder s1.reservations o p = q1 ∧
    ∀ n2, reserveStock s1 p q2 o n2 = .error .invalidReservation := by
  obtain ⟨inv, hfind, hav, hd, hs1⟩ := reserveStock_ok h1
  have hrBy1 : reservedByOrder s1.reservations o p = q1 := by
    rw [hs1]
    exact reservedByOrder_upsert
  refine ⟨hrBy1, ?_⟩
  obtain ⟨inv1, hfind1, hav1⟩ := checkStock_true hchk
  intro n2
  unfold reserveStock
  rw [hfind1]
  simp only
  rw [if_neg (by omega), if_pos (by rw [hrBy1]; omega)]

/-- C5 witness: with quantity 10, reserving 5 then 3 for order X keeps
the row at 5 and the smaller re-reservation fails with
InvalidReservation. -/
theorem reserve_shrink_rejected_witness :
    reservedByOrder (Ledger.reservations ⟨[⟨"p", 10, 5, 1⟩], [⟨"X", "p", 5⟩]⟩) "X" "p" = 5 ∧
    ∀ n2, reserveStock ⟨[⟨"p", 10, 5, 1⟩], [⟨"X", "p", 5⟩]⟩ "p" 3 "X" n2 =
      .error .invalidReservation :=
  reserve_shrink_rejected
    (show reserveStock ⟨[⟨"p", 10, 0, 0⟩], []⟩ "p" 5 "X" 1 =
      .ok ⟨[⟨"p", 10, 5, 1⟩], [⟨"X", "p", 5⟩]⟩ from rfl)
    (by decide) rfl

/-- C6 counterexample: a shrinking request does not always fail with
InvalidReservation: when the availability check fails first it fails
with InsufficientStock instead.  Here order X holds 5 of a product with
quantity 5 (a state reached by a single reserve call), and
`Reserve(p, 3, X)` reports `insufficient stock: available 0, requested
3` rather than the invalid-reservation error. -/
theorem shrink_error_shadowed_counterexample :
    reserveStock ⟨[⟨"p", 5, 0, 0⟩], []⟩ "p" 5 "X" 1 =
      .ok ⟨[⟨"p", 5, 5, 1⟩], [⟨"X", "p", 5⟩]⟩ ∧
    (3 : Int) < reservedByOrder [⟨"X", "p", 5⟩] "X" "p" ∧
    reserveStock ⟨[⟨"p", 5, 5, 1⟩], [⟨"X", "p", 5⟩]⟩ "p" 3 "X" 2 =
      .error (.insufficientStock 0 3) :=
  ⟨rfl, by decide, rfl⟩

/-- C6 (amended): a `ReserveStock` call asking for less than the order
already holds never succeeds, so it never mutates the ledger (errors
carry no successor state); the failure is InvalidReservation exactly
when the in-transaction availability check passes, and InsufficientStock
when availability fails first. -/
theorem reserve_shrink_fails_no_mutation {s : Ledger} {p o : String} {q : Int}
    (hlt : q < reservedByOrder s.reservations o p) :
    (∀ now s', reserveStock s p q o now ≠ .ok s') ∧
    (∀ inv, findInventory s.inventory p = some inv →
      q ≤ inv.quantity - inv.reserved →
      ∀ now, reserveStock s p q o now = .error .invalidReservation) := by
  constructor
  · intro now s' hok
    obtain ⟨inv, -, -, hd, -⟩ := reserveStock_ok hok
    omega
  · intro inv hfind hav now
    unfold reserveStock
    rw [hfind]
    simp only
    rw [if_neg (by omega), if_pos (by omega)]

/-- C6 witness: a concrete shrinking call can neither succeed nor avoid
the InvalidReservation error once availability passes. -/
theorem reserve_shrink_fails_no_mutation_witness :
    (∀ now s', reserveStock ⟨[⟨"p", 10, 5, 1⟩], [⟨"X", "p", 5⟩]⟩ "p" 2 "X" now ≠ .ok s') ∧
    (∀ inv, findInventory [⟨"p", 10, 5, 1⟩] "p" = some inv →
      (2 : Int) ≤ inv.quantity - inv.reserved →
      ∀ now, reserveStock ⟨[⟨"p", 10, 5, 1⟩], [⟨"X", "p", 5⟩]⟩ "p" 2 "X" now =
        .error .invalidReservation) :=
  reserve_shrink_fails_no_mutation (by decide)

/-- C9: releasing for an order that holds no reservation of the product
is a successful no-op: the returned state is exactly the input state, so
the inventory row (quantity, reserved, updated_at) and the reservations
table are untouched. -/
theorem release_noop_when_unreserved {s : Ledger} {p o : String} {q : Int} {now : Nat}
    (hrow : (findInventory s.inventory p).isSome = true)
    (hzero : reservedByOrder s.reservations o p = 0) :
    releaseStock s p q o now = .ok s := by
  obtain ⟨inv, hfind⟩ := Option.isSome_iff_exists.mp hrow
  exact releaseStock_noop_of hfind (by rw [hzero]; exact min_le_right _ _)

/-- C9 witness: a concrete release by an order with no holding returns
the unchanged ledger. -/
theorem release_noop_when_unreserved_witness :
    releaseStock ⟨[⟨"p", 10, 4, 0⟩], [⟨"X", "p", 4⟩]⟩ "p" 9 "Y" 5 =
      .ok ⟨[⟨"p", 10, 4, 0⟩], [⟨"X", "p", 4⟩]⟩ :=
  release_noop_when_unreserved (by decide) (by decide)

/-- C8 counterexample: the claim says no CheckStock result obtained
outside the reservation transaction decides whether Reserve is attempted
or fails; but `inventoryService.ReserveStock` calls `repo.CheckStock`
outside any transaction and fails with its own insufficiency error when
that pre-check reports false — the error returned is the service's
gate error, not a repository (in-transaction) error. -/
theorem service_precheck_gates_counterexample :
    serviceReserveStock ⟨[⟨"p", 1, 1, 0⟩], [⟨"A", "p", 1⟩]⟩ "p" 1 "B" 2 =
      .error (.svcInsufficientStock "p") ∧
    ∀ e, SvcError.svcInsufficientStock "p" ≠ SvcError.repoFailed e := by
  refine ⟨rfl, ?_⟩
  intro e h
  cases h

/-- C8 (amended): the authoritative availability check does run inside
the locked serializable transaction — a repository `ReserveStock` only
succeeds when `available ≥ qty` held on the very state the mutation is
applied to — but the service layer additionally consults `CheckStock`
outside the transaction and a false pre-check makes `ReserveStock` fail
with the service's insufficiency error before the transaction is
attempted, so CheckStock is also used as a gate. -/
theorem availability_gate {s : Ledger} {p o : String} {q : Int} {now : Nat} :
    (∀ s', reserveStock s p q o now = .ok s' →
      ∃ inv, findInventory s.inventory p = some inv ∧
        q ≤ inv.quantity - inv.reserved) ∧
    (p ≠ "" → 0 < q → o ≠ "" → checkStock s p q = false →
      serviceReserveStock s p q o now = .error (.svcInsufficientStock p)) := by
  constructor
  · intro s' hok
    obtain ⟨inv, hfind, hav, -, -⟩ := reserveStock_ok hok
    exact ⟨inv, hfind, hav⟩
  · intro hp hq ho hchk
    unfold serviceReserveStock
    rw [if_neg hp, if_neg (by omega), if_neg ho, if_pos (by rw [hchk]; rfl)]

/-- C8 witness: a concrete call where the outside pre-check decides the
failure, via the amended theorem. -/
theorem availability_gate_witness :
    serviceReserveStock ⟨[⟨"p", 2, 2, 0⟩], [⟨"X", "p", 2⟩]⟩ "p" 1 "B" 3 =
      .error (.svcInsufficientStock "p") :=
  (availability_gate).2 (by decide) (by decide) (by decide) rfl

theorem reservePhase_cons_ok {o : String} {t : Nat} {l l1 : Ledger}
    {item : OrderItem} {rest : List OrderItem}
    (h : serviceReserveStock l item.productId item.quantity o t = .ok l1) :
    reservePhase o t l (item :: rest) = reservePhase o t l1 rest := by
  simp only [reservePhase, h]

theorem reservePhase_cons_error {o : String} {t : Nat} {l : Ledger}
    {item : OrderItem} {rest : List OrderItem} {e : SvcError}
    (h : serviceReserveStock l item.productId item.quantity o t = .error e) :
    reservePhase o t l (item :: rest) =
      ((reservePhase o t l rest).1, e :: (reservePhase o t l rest).2) := by
  simp only [reservePhase, h]

theorem reservePhase_append {o : String} {t : Nat} (items1 items2 : List OrderItem) :
    ∀ l, reservePhase o t l (items1 ++ items2) =
      ((reservePhase o t (reservePhase o t l items1).1 items2).1,
       (reservePhase o t l items1).2 ++
         (reservePhase o t (reservePhase o t l items1).1 items2).2) := by
  induction items1 with
  | nil => intro l; simp [reservePhase]
  | cons item rest ih =>
    intro l
    rw [List.cons_append]
    cases h : serviceReserveStock l item.productId item.quantity o t with
    | ok l1 =>
      rw [reservePhase_cons_ok h, reservePhase_cons_ok h, ih l1]
    | error e =>
      rw [reservePhase_cons_error h, reservePhase_cons_error h, ih l]
      rfl

theorem insertItems_orders {uuid : Nat → String} {oid : String} :
    ∀ (items : List OrderItem) (db : OrderDb) (k : Nat),
      (insertItems uuid oid items db k).2.1.orders = db.orders := by
  intro items
  induction items with
  | nil => intro db k; rfl
  | cons item rest ih => intro db k; exact ih _ _

theorem insertItems_len {uuid : Nat → String} {oid : String} :
    ∀ (items : List OrderItem) (db : OrderDb) (k : Nat),
      (insertItems uuid oid items db k).1.length = items.length := by
  intro items
  induction items with
  | nil => intro db k; rfl
  | cons item rest ih =>
    intro db k
    show ((insertItems uuid oid (item :: rest) db k).1).length = rest.length + 1
    unfold insertItems
    simp only [List.length_cons]
    rw [ih]

theorem insertItems_items {uuid : Nat → String} {oid : String} :
    ∀ (items : List OrderItem) (db : OrderDb) (k : Nat),
      (insertItems uuid oid items db k).2.1.orderItems =
        db.orderItems ++ (insertItems uuid oid items db k).1 := by
  intro items
  induction items with
  | nil => intro db k; simp [insertItems]
  | cons item rest ih =>
    intro db k
    unfold insertItems
    simp only
    rw [ih]
    simp only [List.append_assoc, List.singleton_append]

theorem insertItems_orderId {uuid : Nat → String} {oid : String} :
    ∀ (items : List OrderItem) (db : OrderDb) (k : Nat),
      ∀ it ∈ (insertItems uuid oid items db k).1, it.orderId = oid := by
  intro items
  induction items with
  | nil => intro db k it hit; cases hit
  | cons item rest ih =>
    intro db k it hit
    unfold insertItems at hit
    simp only at hit
    rcases List.mem_cons.mp hit with rfl | hit'
    · rfl
    · exact ih _ _ it hit'

theorem insertItems_counter {uuid : Nat → String} {oid : String} :
    ∀ (items : List OrderItem) (db : OrderDb) (k : Nat),
      (insertItems uuid oid items db k).2.2 =
        k + items.countP (fun it => it.id == "") := by
  intro items
  induction items with
  | nil => intro db k; simp [insertItems]
  | cons item rest ih =>
    intro db k
    unfold insertItems
    simp only
    rw [ih, List.countP_cons]
    by_cases h : item.id = ""
    · rw [if_pos h]
      have hb0 : ((fun it : OrderItem => it.id == "") item = true) := by simp [h]
      rw [if_pos hb0]
      omega
    · rw [if_neg h]
      have hb0 : ¬ ((fun it : OrderItem => it.id == "") item = true) := by simp [h]
      rw [if_neg hb0]
      omega

theorem insertItems_get {uuid : Nat → String} {oid : String} :
    ∀ (items : List OrderItem) (db : OrderDb) (k : Nat)
      (i : Nat) (hi : i < items.length)
      (hi' : i < (insertItems uuid oid items db k).1.length),
      (insertItems uuid oid items db k).1.get ⟨i, hi'⟩ =
        { items.get ⟨i, hi⟩ with
          id := if (items.get ⟨i, hi⟩).id = "" then
                  uuid (k + (items.take i).countP (fun it => it.id == ""))
                else (items.get ⟨i, hi⟩).id,
          orderId := oid } := by
  intro items
  induction items with
  | nil => intro db k i hi; cases hi
  | cons item rest ih =>
    intro db k i hi hi'
    have hgetz : ∀ (x : OrderItem) (xs : List OrderItem) (h0 : 0 < (x :: xs).length),
        (x :: xs).get ⟨0, h0⟩ = x := fun _ _ _ => rfl
    cases i with
    | zero =>
      simp only [insertItems, hgetz, List.take_zero, List.countP_nil, Nat.add_zero]
      by_cases h : item.id = ""
      · rw [if_pos h, if_pos h]
      · rw [if_neg h, if_neg h]
    | succ j =>
      have hj : j < rest.length := by
        simpa [Nat.succ_lt_succ_iff] using hi
      simp only [insertItems, List.get_cons_succ]
      have hj2 : j < (insertItems uuid oid rest
          { db with orderItems := db.orderItems ++
              [{ item with
                   id := (if item.id = "" then (uuid k, k + 1) else (item.id, k)).1,
                   orderId := oid }] }
          (if item.id = "" then (uuid k, k + 1) else (item.id, k)).2).1.length := by
        rw [insertItems_len]
        exact hj
      rw [ih _ _ j hj hj2]
      have harg : (if item.id = "" then (uuid k, k + 1) else (item.id, k)).2 +
          (rest.take j).countP (fun it => it.id == "") =
          k + ((item :: rest).take (j + 1)).countP (fun it => it.id == "") := by
        rw [List.take_succ_cons, List.countP_cons]
        by_cases h : item.id = ""
        · rw [if_pos h]
          have hb0 : ((fun it : OrderItem => it.id == "") item = true) := by simp [h]
          rw [if_pos hb0]
          omega
        · rw [if_neg h]
          have hb0 : ¬ ((fun it : OrderItem => it.id == "") item = true) := by simp [h]
          rw [if_neg hb0]
          omega
      rw [harg]

theorem orderRow_id_update {order : Order} {now : Nat} {r : OrderRow} :
    (if r.id == order.id then
        { r with userId := order.userId, status := order.status, updatedAt := now }
      else r).id = r.id := by
  split <;> rfl

theorem orderRepoUpdate_find (db : OrderDb) (order : Order) (now : Nat) {x : String}
    (hx : order.id = x)
    (hsome : (db.orders.find? (fun r => r.id == x)).isSome = true) :
    ∃ row, (orderRepoUpdate db order now).1.orders.find?
        (fun r => r.id == x) = some row ∧
      row.status = order.status ∧ row.userId = order.userId ∧ row.updatedAt = now := by
  subst hx
  obtain ⟨r0, hr0⟩ := Option.isSome_iff_exists.mp hsome
  have hpred := List.find?_some hr0
  simp only at hpred
  unfold orderRepoUpdate
  simp only
  rw [List.find?_map]
  have hfn : ((fun r : OrderRow => r.id == order.id) ∘
      (fun r : OrderRow =>
        if r.id == order.id then
          { r with userId := order.userId, status := order.status, updatedAt := now }
        else r)) = (fun r : OrderRow => r.id == order.id) := by
    funext r
    simp only [Function.comp]
    rw [orderRow_id_update]
  rw [hfn, hr0]
  refine ⟨_, rfl, ?_, ?_, ?_⟩ <;> simp [hpred]

theorem find?_append_isSome_right {α : Type} {p : α → Bool} {l1 l2 : List α}
    (h : (l2.find? p).isSome = true) : ((l1 ++ l2).find? p).isSome = true := by
  rw [List.find?_append]
  cases hf : l1.find? p with
  | none => simpa [Option.or] using h
  | some a => simp [Option.or]

theorem orderRepoCreate_parts {db : OrderDb} {order : Order} {uuid : Nat → String}
    {k now : Nat} {db' : OrderDb} {order' : Order} {k' : Nat}
    (hid : order.id = "")
    (hcreate : orderRepoCreate db order uuid k now = (db', order', k')) :
    order'.id = uuid k ∧
    order'.userId = order.userId ∧
    order'.status = order.status ∧
    order'.createdAt = now ∧
    order'.updatedAt = now ∧
    db'.orders = db.orders ++ [⟨uuid k, order.userId, order.status, now, now⟩] ∧
    db'.orderItems = db.orderItems ++ order'.items ∧
    order'.items.length = order.items.length ∧
    (∀ it ∈ order'.items, it.orderId = uuid k) ∧
    k' = k + 1 + order.items.countP (fun it => it.id == "") ∧
    (∀ i, ∀ hi : i < order.items.length, ∀ hi' : i < order'.items.length,
      order'.items.get ⟨i, hi'⟩ =
        { order.items.get ⟨i, hi⟩ with
          id := if (order.items.get ⟨i, hi⟩).id = "" then
                  uuid (k + 1 + (order.items.take i).countP (fun it => it.id == ""))
                else (order.items.get ⟨i, hi⟩).id,
          orderId := uuid k }) := by
  unfold orderRepoCreate at hcreate
  rw [if_pos hid] at hcreate
  simp only [Prod.mk.injEq] at hcreate
  obtain ⟨hdb, hord, hk⟩ := hcreate
  subst hdb
  subst hord
  subst hk
  refine ⟨rfl, rfl, rfl, rfl, rfl, ?_, ?_, ?_, ?_, ?_, ?_⟩
  · rw [insertItems_orders]
  · rw [insertItems_items]
  · rw [insertItems_len]
  · exact insertItems_orderId _ _ _
  · rw [insertItems_counter]
  · intro i hi hi'
    exact insertItems_get _ _ _ i hi hi'

theorem createOrder_eq_reject {w : World} {req : CreateOrderRequest}
    {uuid : Nat → String} {k : Nat} {t1 t2 : Nat} (t3 : Nat)
    {db1 : OrderDb} {order1 : Order} {k1 : Nat} {l1 : Ledger}
    {e : SvcError} {es : List SvcError}
    (hval : validateCreateOrderRequest req = none)
    (hcreate : orderRepoCreate w.orderDb (initialOrder req) uuid k t1 = (db1, order1, k1))
    (hres : reservePhase order1.id t2 w.ledger order1.items = (l1, e :: es)) :
    createOrder w req uuid k t1 t2 t3 =
      (⟨(orderRepoUpdate db1 { order1 with status := "rejected" } t3).1,
        releasePhase order1.id t2 l1 order1.items⟩,
       k1, .error (.reserveInventoryFailed e)) := by
  unfold createOrder
  rw [hval]
  simp only
  rw [hcreate]
  simp only
  rw [hres]

theorem createOrder_eq_confirm {w : World} {req : CreateOrderRequest}
    {uuid : Nat → String} {k : Nat} {t1 t2 : Nat} (t3 : Nat)
    {db1 : OrderDb} {order1 : Order} {k1 : Nat} {l1 : Ledger}
    (hval : validateCreateOrderRequest req = none)
    (hcreate : orderRepoCreate w.orderDb (initialOrder req) uuid k t1 = (db1, order1, k1))
    (hres : reservePhase order1.id t2 w.ledger order1.items = (l1, [])) :
    createOrder w req uuid k t1 t2 t3 =
      (⟨(orderRepoUpdate db1 { order1 with status := "confirmed" } t3).1, l1⟩,
       k1, .ok (orderRepoUpdate db1 { order1 with status := "confirmed" } t3).2) := by
  unfold createOrder
  rw [hval]
  simp only
  rw [hcreate]
  simp only
  rw [hres]

/-- C3: when the reservation phase of `CreateOrder` reports at least
one failure, the saga returns the first collected reservation error to
the caller, runs the compensating `ReleaseStock` over every line item
of the order starting from the post-reservation ledger, and persists
the order with status "rejected"; and the reservation loop never
short-circuits: reserving a concatenation of item lists processes the
second list from the ledger state the first left behind and
concatenates the collected errors, even when the first list already
produced errors. -/
theorem createOrder_failure_path {w : World} {req : CreateOrderRequest}
    {uuid : Nat → String} {k : Nat} {t1 t2 t3 : Nat}
    {db1 : OrderDb} {order1 : Order} {k1 : Nat} {l1 : Ledger}
    {e : SvcError} {es : List SvcError}
    (hval : validateCreateOrderRequest req = none)
    (hcreate : orderRepoCreate w.orderDb (initialOrder req) uuid k t1 = (db1, order1, k1))
    (hres : reservePhase order1.id t2 w.ledger order1.items = (l1, e :: es)) :
    createOrder w req uuid k t1 t2 t3 =
      (⟨(orderRepoUpdate db1 { order1 with status := "rejected" } t3).1,
        releasePhase order1.id t2 l1 order1.items⟩,
       k1, .error (.reserveInventoryFailed e)) ∧
    (∀ l i1 i2, reservePhase order1.id t2 l (i1 ++ i2) =
      ((reservePhase order1.id t2 (reservePhase order1.id t2 l i1).1 i2).1,
       (reservePhase order1.id t2 l i1).2 ++
         (reservePhase order1.id t2 (reservePhase order1.id t2 l i1).1 i2).2)) ∧
    (∃ row, (createOrder w req uuid k t1 t2 t3).1.orderDb.orders.find?
        (fun r => r.id == order1.id) = some row ∧ row.status = "rejected") := by
  have heq := createOrder_eq_reject t3 hval hcreate hres
  refine ⟨heq, fun l i1 i2 => reservePhase_append i1 i2 l, ?_⟩
  rw [heq]
  have hparts := orderRepoCreate_parts rfl hcreate
  have hid1 : order1.id = uuid k := hparts.1
  have hdb1 := hparts.2.2.2.2.2.1
  have hex : (db1.orders.find? (fun r => r.id == order1.id)).isSome = true := by
    rw [hdb1]
    apply find?_append_isSome_right
    simp [hid1]
  obtain ⟨row, hrow, hst, -, -⟩ :=
    orderRepoUpdate_find db1 { order1 with status := "rejected" } t3 rfl hex
  exact ⟨row, hrow, hst⟩

/-- C3 witness: a two-item order whose second product has zero stock;
the rejected order row is found persisted. -/
theorem createOrder_failure_path_witness :
    ∃ row, (createOrder ⟨⟨[], []⟩, ⟨[⟨"A", 10, 0, 0⟩, ⟨"B", 0, 0, 0⟩], []⟩⟩
        ⟨"user1", [⟨"A", 2, 5⟩, ⟨"B", 2, 5⟩]⟩
        Nat.repr 0 1 2 3).1.orderDb.orders.find?
        (fun r => r.id == "0") = some row ∧ row.status = "rejected" :=
  (@createOrder_failure_path
    ⟨⟨[], []⟩, ⟨[⟨"A", 10, 0, 0⟩, ⟨"B", 0, 0, 0⟩], []⟩⟩
    ⟨"user1", [⟨"A", 2, 5⟩, ⟨"B", 2, 5⟩]⟩
    Nat.repr 0 1 2 3
    ⟨[⟨"0", "user1", "pending", 1, 1⟩],
     [⟨"1", "0", "A", 2, 5⟩, ⟨"2", "0", "B", 2, 5⟩]⟩
    ⟨"0", "user1", "pending", [⟨"1", "0", "A", 2, 5⟩, ⟨"2", "0", "B", 2, 5⟩], 1, 1⟩
    3
    ⟨[⟨"A", 10, 2, 2⟩, ⟨"B", 0, 0, 0⟩], [⟨"0", "A", 2⟩]⟩
    (.svcInsufficientStock "B") []
    rfl rfl rfl).2.2

/-- C7: once a valid request has been persisted, `CreateOrder` drives
the stored status of the created order to "confirmed" or "rejected" on
every return path before answering the caller — the persisted row is
never left "pending"; it reads "confirmed" exactly on the success
return and "rejected" on the reservation-failure return.  (A validation
failure returns before anything is persisted; database faults and
process crashes are outside the model.) -/
theorem createOrder_no_pending {w : World} {req : CreateOrderRequest}
    {uuid : Nat → String} {k : Nat} {t1 t2 t3 : Nat}
    (hval : validateCreateOrderRequest req = none) :
    ∃ row, (createOrder w req uuid k t1 t2 t3).1.orderDb.orders.find?
        (fun r => r.id == uuid k) = some row ∧
      row.status ≠ "pending" ∧
      (row.status = "confirmed" ∨ row.status = "rejected") ∧
      (∀ ord, (createOrder w req uuid k t1 t2 t3).2.2 = .ok ord →
        row.status = "confirmed") ∧
      (∀ err, (createOrder w req uuid k t1 t2 t3).2.2 = .error err →
        row.status = "rejected") := by
  rcases hcr : orderRepoCreate w.orderDb (initialOrder req) uuid k t1 with ⟨db1, order1, k1⟩
  have hparts := orderRepoCreate_parts rfl hcr
  have hid1 : order1.id = uuid k := hparts.1
  have hdb1 := hparts.2.2.2.2.2.1
  have hex : (db1.orders.find? (fun r => r.id == uuid k)).isSome = true := by
    rw [hdb1]
    apply find?_append_isSome_right
    simp
  rcases hres : reservePhase order1.id t2 w.ledger order1.items with ⟨l1, errs⟩
  cases errs with
  | nil =>
    have heq := createOrder_eq_confirm t3 hval hcr hres
    rw [heq]
    obtain ⟨row, hrow, hst, -, -⟩ :=
      orderRepoUpdate_find db1 { order1 with status := "confirmed" } t3 hid1 hex
    refine ⟨row, hrow, ?_, Or.inl hst, ?_, ?_⟩
    · rw [hst]
      show ("confirmed" : String) ≠ "pending"
      decide
    · intro ord h
      exact hst
    · intro err h
      exact Except.noConfusion h
  | cons e es =>
    have heq := createOrder_eq_reject t3 hval hcr hres
    rw [heq]
    obtain ⟨row, hrow, hst, -, -⟩ :=
      orderRepoUpdate_find db1 { order1 with status := "rejected" } t3 hid1 hex
    refine ⟨row, hrow, ?_, Or.inr hst, ?_, ?_⟩
    · rw [hst]
      show ("rejected" : String) ≠ "pending"
      decide
    · intro ord h
      exact Except.noConfusion h
    · intro err h
      exact hst

/-- C7 witness: a one-item order that confirms; the persisted row is
found with a terminal status. -/
theorem createOrder_no_pending_witness :
    ∃ row, (createOrder ⟨⟨[], []⟩, ⟨[⟨"A", 10, 0, 0⟩], []⟩⟩
        ⟨"u1", [⟨"A", 1, 1⟩]⟩ Nat.repr 0 1 2 3).1.orderDb.orders.find?
        (fun r => r.id == Nat.repr 0) = some row ∧
      row.status ≠ "pending" ∧
      (row.status = "confirmed" ∨ row.status = "rejected") ∧
      (∀ ord, (createOrder ⟨⟨[], []⟩, ⟨[⟨"A", 10, 0, 0⟩], []⟩⟩
          ⟨"u1", [⟨"A", 1, 1⟩]⟩ Nat.repr 0 1 2 3).2.2 = .ok ord →
        row.status = "confirmed") ∧
      (∀ err, (createOrder ⟨⟨[], []⟩, ⟨[⟨"A", 10, 0, 0⟩], []⟩⟩
          ⟨"u1", [⟨"A", 1, 1⟩]⟩ Nat.repr 0 1 2 3).2.2 = .error err →
        row.status = "rejected") :=
  createOrder_no_pending rfl

/-- C10: `orderRepository.Create` on an order with an empty id assigns
it the freshly generated uuid, stamps `CreatedAt` and `UpdatedAt` with
one and the same timestamp, inserts exactly one order row and one row
per item, overwrites every item's `OrderID` with the order's id (so
every persisted item references its parent order), keeps non-empty item
ids, and gives each empty-id item the next generated uuid in positional
order. -/
theorem orderRepoCreate_assigns {db : OrderDb} {order : Order} {uuid : Nat → String}
    {k now : Nat} {db' : OrderDb} {order' : Order} {k' : Nat}
    (hid : order.id = "")
    (hcreate : orderRepoCreate db order uuid k now = (db', order', k')) :
    order'.id = uuid k ∧
    order'.userId = order.userId ∧
    order'.status = order.status ∧
    order'.createdAt = now ∧
    order'.updatedAt = now ∧
    db'.orders = db.orders ++ [⟨uuid k, order.userId, order.status, now, now⟩] ∧
    db'.orderItems = db.orderItems ++ order'.items ∧
    order'.items.length = order.items.length ∧
    (∀ it ∈ order'.items, it.orderId = uuid k) ∧
    k' = k + 1 + order.items.countP (fun it => it.id == "") ∧
    (∀ i, ∀ hi : i < order.items.length, ∀ hi' : i < order'.items.length,
      order'.items.get ⟨i, hi'⟩ =
        { order.items.get ⟨i, hi⟩ with
          id := if (order.items.get ⟨i, hi⟩).id = "" then
                  uuid (k + 1 + (order.items.take i).countP (fun it => it.id == ""))
                else (order.items.get ⟨i, hi⟩).id,
          orderId := uuid k }) :=
  orderRepoCreate_parts hid hcreate

/-- C10 witness: creating an order with one empty-id item and one
pre-set item id: the order gets uuid 5, the empty item uuid 6, both
items point at the parent, and the timestamps coincide. -/
theorem orderRepoCreate_assigns_witness :
    (∀ it ∈ (orderRepoCreate ⟨[], []⟩
        ⟨"", "u", "pending", [⟨"", "", "P", 1, 2⟩, ⟨"x9", "", "Q", 2, 3⟩], 0, 0⟩
        Nat.repr 5 7).2.1.items, it.orderId = Nat.repr 5) ∧
    (orderRepoCreate ⟨[], []⟩
        ⟨"", "u", "pending", [⟨"", "", "P", 1, 2⟩, ⟨"x9", "", "Q", 2, 3⟩], 0, 0⟩
        Nat.repr 5 7).2.1.createdAt = 7 ∧
    (orderRepoCreate ⟨[], []⟩
        ⟨"", "u", "pending", [⟨"", "", "P", 1, 2⟩, ⟨"x9", "", "Q", 2, 3⟩], 0, 0⟩
        Nat.repr 5 7).2.1.updatedAt = 7 ∧
    (orderRepoCreate ⟨[], []⟩
        ⟨"", "u", "pending", [⟨"", "", "P", 1, 2⟩, ⟨"x9", "", "Q", 2, 3⟩], 0, 0⟩
        Nat.repr 5 7).2.1.id = Nat.repr 5 :=
  have h := @orderRepoCreate_assigns ⟨[], []⟩
    ⟨"", "u", "pending", [⟨"", "", "P", 1, 2⟩, ⟨"x9", "", "Q", 2, 3⟩], 0, 0⟩
    Nat.repr 5 7 _ _ _ rfl rfl
  ⟨h.2.2.2.2.2.2.2.2.1, h.2.2.2.1, h.2.2.2.2.1, h.1⟩

end GolangMicroservice
